import Mathlib

/-!
Verification of `.eleventy.js`

A shallow embedding of the two pieces of `.eleventy.js` that carry control flow:

* the Liquid tags `test` and `post` (their `parse` and `render` methods);
* the `htmlmin` transform (`htmlMinTransform`): the five typography substitutions,
  the injection of the minified stylesheet before `</head>`, and the gate on the
  page's output path.

JavaScript strings are sequences of UTF-16 code units and every operation used by
the source (`indexOf`, `slice`, `endsWith`, `replace` with a string pattern,
`replace` with a regular expression without the `u` flag) works on code units.
A string is therefore embedded as a `List Nat` of code units; every JavaScript
string is such a list (with all units below 65536), and the theorems below hold
for all lists.
-/

namespace Eleventy

/-! ## Strings -/

/-- A JavaScript string: its UTF-16 code units. -/
abbrev JSString := List Nat

/-- UTF-16 code units of one Unicode scalar value. -/
def utf16Char (c : Char) : List Nat :=
  if c.toNat < 65536 then [c.toNat]
  else [55296 + (c.toNat - 65536) / 1024, 56320 + (c.toNat - 65536) % 1024]

/-- UTF-16 code units of a string literal of the source. -/
def utf16 (s : String) : JSString :=
  s.toList.flatMap utf16Char

/-- The constant `nbsp` of the source: `const nbsp = "&nbsp;"`. -/
def nbsp : JSString := [38, 110, 98, 115, 112, 59]

/-- `String.prototype.indexOf(pat)` as the search from position `k`: the smallest
index at or after the current one where `pat` occurs, or `-1`. The list argument is
the part of the string from position `k` on. -/
def indexOfFrom (pat : JSString) : JSString → Nat → Int
  | [], k => if pat = [] then (k : Int) else -1
  | c :: rest, k => if pat <+: c :: rest then (k : Int) else indexOfFrom pat rest (k + 1)

/-- `s.indexOf(pat)`. -/
def indexOf (s pat : JSString) : Int :=
  indexOfFrom pat s 0

/-- The clamping of a relative index done by `String.prototype.slice`: a negative
index counts from the end, and the result is clamped to `0 .. len`. -/
def relIndex (len : Nat) (i : Int) : Nat :=
  if i < 0 then (len + i).toNat else min i.toNat len

/-- `s.slice(start, stop)`. -/
def slice (s : JSString) (start stop : Int) : JSString :=
  (s.take (relIndex s.length stop)).drop (relIndex s.length start)

/-- `s.slice(start)`. -/
def sliceFrom (s : JSString) (start : Int) : JSString :=
  s.drop (relIndex s.length start)

/-- `s.endsWith(pat)`. -/
def endsWith (s pat : JSString) : Bool :=
  pat.isSuffixOf s

/-- Truthiness of a JavaScript string: every string but the empty one. -/
def truthy (s : JSString) : Bool :=
  !s.isEmpty

/-- Truthiness of a property that is either absent (`undefined`) or a string. -/
def truthyOpt : Option JSString → Bool
  | none => false
  | some s => truthy s

/-! ## The `test` and `post` tags -/

/-- The fields of a collection entry that the tags read: `fileSlug`, `url` and
`data.pagetitle`, all strings. -/
structure Entry where
  fileSlug : JSString
  url : JSString
  pagetitle : JSString
  deriving DecidableEq, Repr

/-- The properties that `parse` sets on the tag object: `this.slug`, and
`this.label`, which stays absent when `parse` does not assign it. -/
structure Tag where
  slug : JSString
  label : Option JSString
  deriving DecidableEq, Repr

/-- The method `parse` of the `test` tag, as the tag object it leaves behind;
`args` is `tagToken.args`. -/
def testParse (args : JSString) : Tag :=
  let input := args
  let index := indexOf input [32]
  if index != -1 then
    { slug := slice input 0 index, label := some (sliceFrom input (index + 1)) }
  else
    { slug := input, label := none }

/-- The method `parse` of the `post` tag. -/
def postParse (args : JSString) : Tag :=
  let input := args
  let index := indexOf input [32]
  if index != -1 then
    { slug := slice input 0 index, label := some (sliceFrom input (index + 1)) }
  else
    { slug := input, label := none }

/-- The template literal that both tags return when a label is
set: an opening bracket, the label, `](`, the url, a space, the title in double
quotes, and a closing parenthesis. -/
def markdownLink (label url pagetitle : JSString) : JSString :=
  [91] ++ label ++ [93, 40] ++ url ++ [32, 34] ++ pagetitle ++ [34, 41]

/-- The method `render` of the `test` tag; `tests` is
`ctx.environments.collections.test`. A thrown `Error` is modelled by its message. -/
def testRender (self : Tag) (tests : List Entry) : Except JSString JSString :=
  match tests.find? (fun t => t.fileSlug == self.slug) with
  | none => .error (utf16 "No " ++ self.slug ++ utf16 " test")
  | some test =>
    if truthyOpt self.label then
      .ok (markdownLink (self.label.getD []) test.url test.pagetitle)
    else
      .ok test.url

/-- The method `render` of the `post` tag; `posts` is
`ctx.environments.collections.post`. -/
def postRender (self : Tag) (posts : List Entry) : Except JSString JSString :=
  match posts.find? (fun t => t.fileSlug == self.slug) with
  | none => .error (utf16 "No " ++ self.slug ++ utf16 " article")
  | some post =>
    if truthyOpt self.label then
      .ok (markdownLink (self.label.getD []) post.url post.pagetitle)
    else
      .ok post.url

/-! ## The `htmlmin` transform -/

/-- The class `[!?:;»]` of the first regular expression. -/
def isPunct (c : Nat) : Bool :=
  c == 33 || c == 63 || c == 58 || c == 59 || c == 187

/-- The units that `.` does not match in a regular expression without the `s` flag:
line feed, carriage return, U+2028 and U+2029. -/
def isLineTerminator (c : Nat) : Bool :=
  c == 10 || c == 13 || c == 8232 || c == 8233

/-- First substitution, `.replace(/ ([!?:;»])/g, nbsp + "$1")`: scanning from the left,
a space followed by a unit of the class is replaced by `&nbsp;` and that unit
(the capture), and the scan resumes after the two units. -/
def nbspBeforePunct : JSString → JSString
  | [] => []
  | [a] => [a]
  | a :: b :: rest =>
    if a = 32 ∧ isPunct b = true then nbsp ++ b :: nbspBeforePunct rest
    else a :: nbspBeforePunct (b :: rest)

/-- Second substitution, `.replace(/« /g, "«" + nbsp)`. -/
def nbspAfterGuillemet : JSString → JSString
  | [] => []
  | [a] => [a]
  | a :: b :: rest =>
    if a = 171 ∧ b = 32 then 171 :: nbsp ++ nbspAfterGuillemet rest
    else a :: nbspAfterGuillemet (b :: rest)

/-- Third substitution, `.replace(/([^-].)'/g, "$1’")`: a match is three units, one
that is not a hyphen, one that is not a line terminator, and a straight apostrophe;
the first two are the capture and are written back, the apostrophe becomes U+2019,
and the scan resumes after the three units. -/
def apostrophe : JSString → JSString
  | [] => []
  | [a] => [a]
  | [a, b] => [a, b]
  | a :: b :: c :: rest =>
    if a ≠ 45 ∧ isLineTerminator b = false ∧ c = 39 then a :: b :: 8217 :: apostrophe rest
    else a :: apostrophe (b :: c :: rest)

/-- Fourth substitution, `.replace(/oe/g, "œ")`. -/
def ligature : JSString → JSString
  | [] => []
  | [a] => [a]
  | a :: b :: rest =>
    if a = 111 ∧ b = 101 then 339 :: ligature rest
    else a :: ligature (b :: rest)

/-- Fifth substitution, `.replace(/\.\.\./g, "…")`. -/
def ellipsis : JSString → JSString
  | [] => []
  | [a] => [a]
  | [a, b] => [a, b]
  | a :: b :: c :: rest =>
    if a = 46 ∧ b = 46 ∧ c = 46 then 8230 :: ellipsis rest
    else a :: ellipsis (b :: c :: rest)

/-- Stage 1 of the transform: the chain of the five substitutions, in source order. -/
def stage1 (content : JSString) : JSString :=
  ellipsis (ligature (apostrophe (nbspAfterGuillemet (nbspBeforePunct content))))

/-- The abstract operation `GetSubstitution` of ECMAScript for a string pattern (no
captures, no named captures): in the replacement template `$$` stands for a dollar
sign, `$&` for the matched text, a dollar sign and a backtick for the text before the
match, a dollar sign and an apostrophe for the text after it; every other unit,
a dollar sign before anything else included, stands for itself. -/
def getSubstitution (matched str : JSString) (position : Nat) : JSString → JSString
  | [] => []
  | [c] => [c]
  | c :: d :: rest =>
    if c = 36 ∧ d = 36 then 36 :: getSubstitution matched str position rest
    else if c = 36 ∧ d = 38 then matched ++ getSubstitution matched str position rest
    else if c = 36 ∧ d = 96 then str.take position ++ getSubstitution matched str position rest
    else if c = 36 ∧ d = 39 then
      str.drop (position + matched.length) ++ getSubstitution matched str position rest
    else c :: getSubstitution matched str position (d :: rest)

/-- `s.replace(pat, template)` for a string `pat`: only the first occurrence of `pat`
is replaced, by the expansion of `template`. -/
def replaceString (s pat template : JSString) : JSString :=
  let pos := indexOf s pat
  if pos = -1 then s
  else
    s.take pos.toNat ++ getSubstitution pat s pos.toNat template
      ++ s.drop (pos.toNat + pat.length)

/-- Stage 4 of the transform:
``content.replace("</head>", `<style>${cleanCss}</style></head>`)``. -/
def injectStyle (content cleanCss : JSString) : JSString :=
  replaceString content (utf16 "</head>")
    (utf16 "<style>" ++ cleanCss ++ utf16 "</style></head>")

/-- The libraries that the transform calls; each may throw. -/
structure Collaborators (ε : Type) where
  /-- `(await new PurgeCSS().purge(...))[0].css` for the page `raw` and the stylesheet `css`. -/
  purge : (raw css : JSString) → Except ε JSString
  /-- `new CleanCSS({}).minify(css).styles`. -/
  cleanCss : JSString → Except ε JSString
  /-- `htmlmin.minify(content, ...)` with `removeComments` and `collapseWhitespace`. -/
  htmlmin : JSString → Except ε JSString

/-- The transform `htmlMinTransform`. `outputPath` is `this.page.outputPath` (absent when
it is not a string), `fullCss` the stylesheet read at configuration time, `NO_MINIFY`
the environment variable. The calls to the benchmark manager only record timings
and are left out. -/
def htmlMinTransform {ε : Type} (env : Collaborators ε) (fullCss : JSString)
    (NO_MINIFY outputPath : Option JSString) (content : JSString) : Except ε JSString :=
  if truthyOpt outputPath && endsWith (outputPath.getD []) (utf16 ".html") then do
    let content := stage1 content
    let purgeResult ← env.purge content fullCss
    let cleanCss ← env.cleanCss purgeResult
    let content := injectStyle content cleanCss
    if !truthyOpt NO_MINIFY then env.htmlmin content else pure content
  else
    pure content

/-! ## Vocabulary of the statements -/

/-- No unit of class `A` is immediately followed by a unit of class `B`. -/
def PairFree (A B : Nat → Bool) (s : JSString) : Prop :=
  List.Chain' (fun a b => ¬ (A a = true ∧ B b = true)) s

/-- Number of positions of `s` at which `pat` occurs. -/
def countOccurrences (pat : JSString) : JSString → Nat
  | [] => if pat <+: [] then 1 else 0
  | c :: rest => (if pat <+: c :: rest then 1 else 0) + countOccurrences pat rest

/-- The first substitution as the specification words it: every plain space that is
followed by one of `! ? : ; »` becomes `&nbsp;`, and every other unit is kept. -/
def nbspBeforePunctSpec : JSString → JSString
  | [] => []
  | [a] => [a]
  | a :: b :: rest =>
    (if a = 32 ∧ isPunct b = true then nbsp else [a]) ++ nbspBeforePunctSpec (b :: rest)

/-- Every window of three consecutive units of `s` satisfies `Q`. -/
def Windows3 (Q : Nat → Nat → Nat → Prop) : JSString → Prop
  | [] => True
  | [_] => True
  | [_, _] => True
  | a :: b :: c :: rest => Q a b c ∧ Windows3 Q (b :: c :: rest)

instance Windows3.decidable (Q : Nat → Nat → Nat → Prop) [∀ a b c, Decidable (Q a b c)] :
    ∀ s : JSString, Decidable (Windows3 Q s)
  | [] => isTrue trivial
  | [_] => isTrue trivial
  | [_, _] => isTrue trivial
  | a :: b :: c :: rest =>
    match Windows3.decidable Q (b :: c :: rest) with
    | isTrue h => if hq : Q a b c then isTrue ⟨hq, h⟩ else isFalse fun hw => hq hw.1
    | isFalse h => isFalse fun hw => h hw.2

/-- The reasons for which stage 1 leaves a straight apostrophe that follows the units `a`
and `b`: `a` is a hyphen, `b` is a line terminator, or one of the two is itself a
typographic apostrophe. -/
def Excused (a b : Nat) : Prop :=
  a = 45 ∨ isLineTerminator b = true ∨ a = 8217 ∨ b = 8217

instance Excused.decidable (a b : Nat) : Decidable (Excused a b) := by
  unfold Excused
  infer_instance

/-- The window condition that stage 1 establishes: a straight apostrophe in third place
is excused by the two units before it. -/
def Settled (a b c : Nat) : Prop :=
  c = 39 → Excused a b

instance Settled.decidable (a b c : Nat) : Decidable (Settled a b c) := by
  unfold Settled
  infer_instance

/-! ## Searching for a pattern -/

theorem indexOfFrom_eq_neg_one (pat s : JSString) (k : Nat) (h : ¬ pat <:+: s) :
    indexOfFrom pat s k = -1 := by
  induction s generalizing k with
  | nil =>
    have hp : pat ≠ [] := by
      rintro rfl
      exact h List.nil_infix
    simp [indexOfFrom, hp]
  | cons c rest ih =>
    have h1 : ¬ pat <+: c :: rest := fun hp => h hp.isInfix
    have h2 : ¬ pat <:+: rest := fun hp =>
      h (hp.trans (List.suffix_cons c rest).isInfix)
    simp [indexOfFrom, h1, ih (k + 1) h2]

theorem indexOfFrom_at_head (pat post : JSString) (k : Nat) :
    indexOfFrom pat (pat ++ post) k = (k : Int) := by
  cases hs : pat ++ post with
  | nil =>
    have hp : pat = [] := (List.append_eq_nil.mp hs).1
    simp [indexOfFrom, hp]
  | cons c rest =>
    have hpre : pat <+: c :: rest := hs ▸ List.prefix_append pat post
    simp [indexOfFrom, hpre]

theorem indexOfFrom_first (pat pre post : JSString) (k : Nat)
    (hfirst : ∀ j, j < pre.length → ¬ pat <+: (pre ++ (pat ++ post)).drop j) :
    indexOfFrom pat (pre ++ (pat ++ post)) k = ((k + pre.length : Nat) : Int) := by
  induction pre generalizing k with
  | nil => simpa using indexOfFrom_at_head pat post k
  | cons a pre ih =>
    have h0 : ¬ pat <+: a :: (pre ++ (pat ++ post)) := by
      simpa using hfirst 0 (by simp)
    have hrest : ∀ j, j < pre.length → ¬ pat <+: (pre ++ (pat ++ post)).drop j := by
      intro j hj
      simpa using hfirst (j + 1) (by simpa using hj)
    rw [List.cons_append, indexOfFrom, if_neg h0, ih (k + 1) hrest, List.length_cons]
    congr 1
    omega

theorem exists_first_space (s : JSString) (h : 32 ∈ s) :
    ∃ pre post, s = pre ++ 32 :: post ∧ 32 ∉ pre := by
  induction s with
  | nil => simp at h
  | cons c rest ih =>
    by_cases hc : c = 32
    · exact ⟨[], rest, by simp [hc], by simp⟩
    · have hr : 32 ∈ rest := by
        rcases List.mem_cons.mp h with h | h
        · exact absurd h.symm hc
        · exact h
      obtain ⟨pre, post, hs, hpre⟩ := ih hr
      refine ⟨c :: pre, post, by simp [hs], ?_⟩
      simp only [List.mem_cons, not_or]
      exact ⟨fun h => hc h.symm, hpre⟩

theorem indexOf_space_absent (s : JSString) (h : 32 ∉ s) : indexOf s [32] = -1 := by
  apply indexOfFrom_eq_neg_one
  intro hin
  exact h (hin.subset (by simp))

theorem indexOfFrom_space_first (pre post : JSString) (k : Nat) (h : 32 ∉ pre) :
    indexOfFrom [32] (pre ++ 32 :: post) k = ((k + pre.length : Nat) : Int) := by
  induction pre generalizing k with
  | nil => simp [indexOfFrom]
  | cons a pre ih =>
    simp only [List.mem_cons, not_or] at h
    have h0 : ¬ [32] <+: a :: (pre ++ 32 :: post) := by
      intro hp
      exact h.1 (List.cons_prefix_cons.mp hp).1
    rw [List.cons_append, indexOfFrom, if_neg h0, ih (k + 1) h.2, List.length_cons]
    congr 1
    omega

theorem indexOf_space_first (pre post : JSString) (h : 32 ∉ pre) :
    indexOf (pre ++ 32 :: post) [32] = (pre.length : Int) := by
  simpa [indexOf] using indexOfFrom_space_first pre post 0 h

theorem parse_of_no_space (s : JSString) (h : 32 ∉ s) :
    testParse s = ⟨s, none⟩ ∧ postParse s = ⟨s, none⟩ := by
  simp [testParse, postParse, indexOf_space_absent s h]

theorem parse_of_first_space (pre post : JSString) (h : 32 ∉ pre) :
    testParse (pre ++ 32 :: post) = ⟨pre, some post⟩
      ∧ postParse (pre ++ 32 :: post) = ⟨pre, some post⟩ := by
  have hne : ((pre.length : Int) != -1) = true := by
    simp only [bne_iff_ne, ne_eq]
    omega
  have h1 : slice (pre ++ 32 :: post) 0 (pre.length : Int) = pre := by
    have : ¬ ((pre.length : Int) < 0) := by omega
    simp [slice, relIndex, this]
  have h2 : sliceFrom (pre ++ 32 :: post) ((pre.length : Int) + 1) = post := by
    have : ¬ ((pre.length : Int) + 1 < 0) := by omega
    have ht : ((pre.length : Int) + 1).toNat = pre.length + 1 := by omega
    simp [sliceFrom, relIndex, this, ht]
  simp only [testParse, postParse, indexOf_space_first pre post h, hne, if_true, h1, h2,
    and_self]

/-! ## The tags: parsing -/

/-- C3: for every tag-argument string `s`, `parse` of the `test` and of the `post` tag
splits exactly at the first space. If `s` contains a space, the slug contains no space,
a label is set, and slug, a space and the label give back `s`; if `s` contains no
space, the slug is `s` and no label is set. -/
theorem parse_splits_at_first_space (s : JSString) :
    (32 ∈ s → ∃ slug label,
        testParse s = ⟨slug, some label⟩ ∧ postParse s = ⟨slug, some label⟩
          ∧ 32 ∉ slug ∧ slug ++ [32] ++ label = s)
      ∧ (32 ∉ s → testParse s = ⟨s, none⟩ ∧ postParse s = ⟨s, none⟩) := by
  refine ⟨fun h => ?_, parse_of_no_space s⟩
  obtain ⟨pre, post, rfl, hpre⟩ := exists_first_space s h
  obtain ⟨ht, hp⟩ := parse_of_first_space pre post hpre
  exact ⟨pre, post, ht, hp, hpre, by simp⟩

/-- Witness of C3 on the arguments `slug-a Some Label` and on `slug-a`. -/
theorem parse_splits_at_first_space_witness :
    (∃ slug label,
        testParse (utf16 "slug-a Some Label") = ⟨slug, some label⟩
          ∧ postParse (utf16 "slug-a Some Label") = ⟨slug, some label⟩
          ∧ 32 ∉ slug ∧ slug ++ [32] ++ label = utf16 "slug-a Some Label")
      ∧ testParse (utf16 "slug-a") = ⟨utf16 "slug-a", none⟩
      ∧ postParse (utf16 "slug-a") = ⟨utf16 "slug-a", none⟩ :=
  ⟨(parse_splits_at_first_space (utf16 "slug-a Some Label")).1 (by decide),
    (parse_splits_at_first_space (utf16 "slug-a")).2 (by decide)⟩

/-- C10, as stated, fails: on the empty argument string, and on an argument string
that begins with a space, both tags parse an empty slug. -/
theorem parse_slug_empty_counterexample :
    32 ∈ utf16 " x" ∧ (testParse (utf16 " x")).slug = [] ∧ (postParse (utf16 " x")).slug = []
      ∧ (testParse (utf16 "")).slug = [] ∧ (postParse (utf16 "")).slug = [] := by
  decide

/-- C10, amended: the slug parsed by the `test` and `post` tags is non-empty exactly
when the argument string is non-empty and does not begin with a space. -/
theorem parse_slug_nonempty_iff (s : JSString) :
    ((testParse s).slug ≠ [] ↔ s ≠ [] ∧ s.head? ≠ some 32)
      ∧ ((postParse s).slug ≠ [] ↔ s ≠ [] ∧ s.head? ≠ some 32) := by
  by_cases h : 32 ∈ s
  · obtain ⟨pre, post, rfl, hpre⟩ := exists_first_space s h
    obtain ⟨ht, hp⟩ := parse_of_first_space pre post hpre
    rw [ht, hp]
    cases pre with
    | nil => simp
    | cons a pre =>
      have ha : a ≠ 32 := fun ha => hpre (by simp [ha])
      simp [ha]
  · obtain ⟨ht, hp⟩ := parse_of_no_space s h
    rw [ht, hp]
    cases s with
    | nil => simp
    | cons a rest =>
      have ha : a ≠ 32 := fun ha => h (by simp [ha])
      simp [ha]

/-! ## The tags: rendering -/

theorem find_none_of_absent (slug : JSString) (C : List Entry)
    (h : ∀ e ∈ C, e.fileSlug ≠ slug) :
    C.find? (fun t => t.fileSlug == slug) = none := by
  rw [List.find?_eq_none]
  intro e he
  simpa using h e he

theorem find_first (slug : JSString) (pre post : List Entry) (e : Entry)
    (hpre : ∀ x ∈ pre, x.fileSlug ≠ slug) (he : e.fileSlug = slug) :
    (pre ++ e :: post).find? (fun t => t.fileSlug == slug) = some e := by
  induction pre with
  | nil => simp [he]
  | cons a pre ih =>
    have ha : a.fileSlug ≠ slug := hpre a (by simp)
    have := ih (fun x hx => hpre x (by simp [hx]))
    simp [List.find?_cons, ha, this]

theorem exists_first_match (slug : JSString) (C : List Entry)
    (h : ∃ e ∈ C, e.fileSlug = slug) :
    ∃ pre e post, C = pre ++ e :: post ∧ (∀ x ∈ pre, x.fileSlug ≠ slug) ∧ e.fileSlug = slug := by
  induction C with
  | nil => simp at h
  | cons a C ih =>
    by_cases ha : a.fileSlug = slug
    · exact ⟨[], a, C, rfl, by simp, ha⟩
    · have hC : ∃ e ∈ C, e.fileSlug = slug := by
        obtain ⟨e, he, hs⟩ := h
        rcases List.mem_cons.mp he with rfl | he
        · exact absurd hs ha
        · exact ⟨e, he, hs⟩
      obtain ⟨pre, e, post, rfl, hpre, he⟩ := ih hC
      refine ⟨a :: pre, e, post, rfl, ?_, he⟩
      intro x hx
      rcases List.mem_cons.mp hx with rfl | hx
      · exact ha
      · exact hpre x hx

theorem render_of_find (slug : JSString) (C : List Entry) (e : Entry)
    (hfind : C.find? (fun t => t.fileSlug == slug) = some e) (label : Option JSString) :
    (∀ L : JSString, label = some L → L ≠ [] →
        testRender ⟨slug, label⟩ C
            = .ok (utf16 "[" ++ L ++ utf16 "](" ++ e.url ++ utf16 " \"" ++ e.pagetitle
                ++ utf16 "\")")
          ∧ postRender ⟨slug, label⟩ C
            = .ok (utf16 "[" ++ L ++ utf16 "](" ++ e.url ++ utf16 " \"" ++ e.pagetitle
                ++ utf16 "\")"))
      ∧ ((label = none ∨ label = some []) →
          testRender ⟨slug, label⟩ C = .ok e.url ∧ postRender ⟨slug, label⟩ C = .ok e.url) := by
  have h1 : utf16 "[" = [91] := by decide
  have h2 : utf16 "](" = [93, 40] := by decide
  have h3 : utf16 " \"" = [32, 34] := by decide
  have h4 : utf16 "\")" = [34, 41] := by decide
  refine ⟨?_, ?_⟩
  · rintro L rfl hL
    simp [testRender, postRender, hfind, truthyOpt, truthy, hL, markdownLink, h1, h2, h3, h4]
  · rintro (rfl | rfl) <;> simp [testRender, postRender, hfind, truthyOpt, truthy]

/-- C1: `render` of the `test` and `post` tags fails exactly when no entry of the
collection has `fileSlug` equal to the slug, and the error then carries the slug (the
message is `No`, the slug and `test`, respectively `article`). When some entry matches,
the collection splits at its first matching entry `e`, `render` succeeds, and its result
is, for a non-empty label `L`, the text made of an opening bracket, `L`, `](`, `e.url`,
a space, `e.pagetitle` in double quotes and a closing parenthesis, and `e.url` alone
when the label is absent or empty. -/
theorem render_fails_iff_absent (self : Tag) (C : List Entry) :
    ((∃ msg, testRender self C = .error msg) ↔ ∀ e ∈ C, e.fileSlug ≠ self.slug)
      ∧ ((∃ msg, postRender self C = .error msg) ↔ ∀ e ∈ C, e.fileSlug ≠ self.slug)
      ∧ ((∀ e ∈ C, e.fileSlug ≠ self.slug) →
          testRender self C = .error (utf16 "No " ++ self.slug ++ utf16 " test")
            ∧ postRender self C = .error (utf16 "No " ++ self.slug ++ utf16 " article"))
      ∧ ((∃ e ∈ C, e.fileSlug = self.slug) →
          ∃ pre e post, C = pre ++ e :: post ∧ (∀ x ∈ pre, x.fileSlug ≠ self.slug)
            ∧ e.fileSlug = self.slug
            ∧ (∀ L : JSString, self.label = some L → L ≠ [] →
                testRender self C
                    = .ok (utf16 "[" ++ L ++ utf16 "](" ++ e.url ++ utf16 " \"" ++ e.pagetitle
                        ++ utf16 "\")")
                  ∧ postRender self C
                    = .ok (utf16 "[" ++ L ++ utf16 "](" ++ e.url ++ utf16 " \"" ++ e.pagetitle
                        ++ utf16 "\")"))
            ∧ ((self.label = none ∨ self.label = some []) →
                testRender self C = .ok e.url ∧ postRender self C = .ok e.url)) := by
  have habs : (∀ e ∈ C, e.fileSlug ≠ self.slug) →
      testRender self C = .error (utf16 "No " ++ self.slug ++ utf16 " test")
        ∧ postRender self C = .error (utf16 "No " ++ self.slug ++ utf16 " article") := by
    intro h
    simp [testRender, postRender, find_none_of_absent self.slug C h]
  have hok : (∃ e ∈ C, e.fileSlug = self.slug) →
      (∃ r, testRender self C = .ok r) ∧ (∃ r, postRender self C = .ok r) := by
    intro h
    obtain ⟨pre, e, post, rfl, hpre, he⟩ := exists_first_match self.slug C h
    have hr := render_of_find self.slug _ e (find_first self.slug pre post e hpre he) self.label
    rcases hl : self.label with _ | L
    · have := hr.2 (Or.inl hl)
      exact ⟨⟨_, this.1⟩, ⟨_, this.2⟩⟩
    · by_cases hL : L = []
      · have := hr.2 (Or.inr (by rw [hl, hL]))
        exact ⟨⟨_, this.1⟩, ⟨_, this.2⟩⟩
      · have := hr.1 L hl hL
        exact ⟨⟨_, this.1⟩, ⟨_, this.2⟩⟩
  refine ⟨⟨?_, fun h => ⟨_, (habs h).1⟩⟩, ⟨?_, fun h => ⟨_, (habs h).2⟩⟩, habs, ?_⟩
  · rintro ⟨msg, hmsg⟩ e he heq
    obtain ⟨⟨r, hr⟩, -⟩ := hok ⟨e, he, heq⟩
    rw [hr] at hmsg
    cases hmsg
  · rintro ⟨msg, hmsg⟩ e he heq
    obtain ⟨-, ⟨r, hr⟩⟩ := hok ⟨e, he, heq⟩
    rw [hr] at hmsg
    cases hmsg
  · intro h
    obtain ⟨pre, e, post, rfl, hpre, he⟩ := exists_first_match self.slug C h
    exact ⟨pre, e, post, rfl, hpre, he,
      render_of_find self.slug _ e (find_first self.slug pre post e hpre he) self.label⟩

/-- Witness of C1: an absent slug against a two-entry collection, and the labelled tag
`b Lbl` against a collection whose second and third entries carry the slug `b`: the link
is built from the url and the title of the second entry. -/
theorem render_fails_iff_absent_witness :
    (testRender ⟨utf16 "c", some (utf16 "Lbl")⟩ [⟨utf16 "a", utf16 "/a/", utf16 "A"⟩,
          ⟨utf16 "b", utf16 "/b/", utf16 "B"⟩] = .error (utf16 "No c test")
        ∧ postRender ⟨utf16 "c", some (utf16 "Lbl")⟩ [⟨utf16 "a", utf16 "/a/", utf16 "A"⟩,
          ⟨utf16 "b", utf16 "/b/", utf16 "B"⟩] = .error (utf16 "No c article"))
      ∧ (∃ pre e post,
          [(⟨utf16 "a", utf16 "/a/", utf16 "A"⟩ : Entry), ⟨utf16 "b", utf16 "/b/", utf16 "B"⟩,
              ⟨utf16 "b", utf16 "/b2/", utf16 "B2"⟩] = pre ++ e :: post
            ∧ (∀ x ∈ pre, x.fileSlug ≠ utf16 "b")
            ∧ e.fileSlug = utf16 "b"
            ∧ testRender ⟨utf16 "b", some (utf16 "Lbl")⟩ [⟨utf16 "a", utf16 "/a/", utf16 "A"⟩,
                ⟨utf16 "b", utf16 "/b/", utf16 "B"⟩, ⟨utf16 "b", utf16 "/b2/", utf16 "B2"⟩]
              = .ok (utf16 "[" ++ utf16 "Lbl" ++ utf16 "](" ++ e.url ++ utf16 " \""
                  ++ e.pagetitle ++ utf16 "\")")
            ∧ postRender ⟨utf16 "b", some (utf16 "Lbl")⟩ [⟨utf16 "a", utf16 "/a/", utf16 "A"⟩,
                ⟨utf16 "b", utf16 "/b/", utf16 "B"⟩, ⟨utf16 "b", utf16 "/b2/", utf16 "B2"⟩]
              = .ok (utf16 "[" ++ utf16 "Lbl" ++ utf16 "](" ++ e.url ++ utf16 " \""
                  ++ e.pagetitle ++ utf16 "\")"))
      ∧ testRender ⟨utf16 "b", some (utf16 "Lbl")⟩ [⟨utf16 "a", utf16 "/a/", utf16 "A"⟩,
          ⟨utf16 "b", utf16 "/b/", utf16 "B"⟩, ⟨utf16 "b", utf16 "/b2/", utf16 "B2"⟩]
        = .ok (utf16 "[Lbl](/b/ \"B\")") :=
  ⟨(render_fails_iff_absent ⟨utf16 "c", some (utf16 "Lbl")⟩
      [⟨utf16 "a", utf16 "/a/", utf16 "A"⟩, ⟨utf16 "b", utf16 "/b/", utf16 "B"⟩]).2.2.1
      (by decide),
    match (render_fails_iff_absent ⟨utf16 "b", some (utf16 "Lbl")⟩
      [⟨utf16 "a", utf16 "/a/", utf16 "A"⟩, ⟨utf16 "b", utf16 "/b/", utf16 "B"⟩,
        ⟨utf16 "b", utf16 "/b2/", utf16 "B2"⟩]).2.2.2
      ⟨⟨utf16 "b", utf16 "/b/", utf16 "B"⟩, by decide, by decide⟩ with
    | ⟨pre, e, post, hC, hpre, he, hlab, _⟩ =>
      ⟨pre, e, post, hC, hpre, he, (hlab (utf16 "Lbl") rfl (by decide)).1,
        (hlab (utf16 "Lbl") rfl (by decide)).2⟩,
    rfl⟩

/-- C2: when the collection splits at its first entry `e` with the requested slug, then
with a non-empty label `L` both tags render exactly the markdown link made of `L`,
`e.url` and `e.pagetitle`, and with no label exactly `e.url`. In particular the
arguments `slug-a Some Label`, rendered against a collection whose first entry with slug
`slug-a` has url `/t/slug-a/` and title `T`, give `[Some Label](/t/slug-a/ "T")`. -/
theorem render_found (slug : JSString) (pre post : List Entry) (e : Entry)
    (hpre : ∀ x ∈ pre, x.fileSlug ≠ slug) (he : e.fileSlug = slug) :
    (∀ L : JSString, L ≠ [] →
        testRender ⟨slug, some L⟩ (pre ++ e :: post)
            = .ok (utf16 "[" ++ L ++ utf16 "](" ++ e.url ++ utf16 " \"" ++ e.pagetitle
                ++ utf16 "\")")
          ∧ postRender ⟨slug, some L⟩ (pre ++ e :: post)
            = .ok (utf16 "[" ++ L ++ utf16 "](" ++ e.url ++ utf16 " \"" ++ e.pagetitle
                ++ utf16 "\")"))
      ∧ testRender ⟨slug, none⟩ (pre ++ e :: post) = .ok e.url
      ∧ postRender ⟨slug, none⟩ (pre ++ e :: post) = .ok e.url
      ∧ (slug = utf16 "slug-a" → e.url = utf16 "/t/slug-a/" → e.pagetitle = utf16 "T" →
          testRender (testParse (utf16 "slug-a Some Label")) (pre ++ e :: post)
            = .ok (utf16 "[Some Label](/t/slug-a/ \"T\")")) := by
  have hfind := find_first slug pre post e hpre he
  have hlink : ∀ L : JSString, L ≠ [] →
      testRender ⟨slug, some L⟩ (pre ++ e :: post)
          = .ok (utf16 "[" ++ L ++ utf16 "](" ++ e.url ++ utf16 " \"" ++ e.pagetitle
              ++ utf16 "\")")
        ∧ postRender ⟨slug, some L⟩ (pre ++ e :: post)
          = .ok (utf16 "[" ++ L ++ utf16 "](" ++ e.url ++ utf16 " \"" ++ e.pagetitle
              ++ utf16 "\")") := by
    intro L hL
    have h1 : utf16 "[" = [91] := by decide
    have h2 : utf16 "](" = [93, 40] := by decide
    have h3 : utf16 " \"" = [32, 34] := by decide
    have h4 : utf16 "\")" = [34, 41] := by decide
    simp [testRender, postRender, hfind, truthyOpt, truthy, hL, markdownLink, h1, h2, h3, h4]
  refine ⟨hlink, ?_, ?_, ?_⟩
  · simp [testRender, hfind, truthyOpt]
  · simp [postRender, hfind, truthyOpt]
  · intro hs hu ht
    have hparse : testParse (utf16 "slug-a Some Label")
        = ⟨utf16 "slug-a", some (utf16 "Some Label")⟩ := by decide
    rw [hparse, ← hs, (hlink (utf16 "Some Label") (by decide)).1, hu, ht]
    exact congrArg Except.ok (by decide)

/-- Witness of C2: the collection of the end-to-end example, with one entry before and
one after the entry `slug-a`. -/
theorem render_found_witness :
    (∀ L : JSString, L ≠ [] →
        testRender ⟨utf16 "slug-a", some L⟩
            ([⟨utf16 "x", utf16 "/t/x/", utf16 "X"⟩]
              ++ ⟨utf16 "slug-a", utf16 "/t/slug-a/", utf16 "T"⟩
                :: [⟨utf16 "slug-a", utf16 "/t/other/", utf16 "O"⟩])
            = .ok (utf16 "[" ++ L ++ utf16 "](" ++ utf16 "/t/slug-a/" ++ utf16 " \"" ++ utf16 "T"
                ++ utf16 "\")")
          ∧ postRender ⟨utf16 "slug-a", some L⟩
            ([⟨utf16 "x", utf16 "/t/x/", utf16 "X"⟩]
              ++ ⟨utf16 "slug-a", utf16 "/t/slug-a/", utf16 "T"⟩
                :: [⟨utf16 "slug-a", utf16 "/t/other/", utf16 "O"⟩])
            = .ok (utf16 "[" ++ L ++ utf16 "](" ++ utf16 "/t/slug-a/" ++ utf16 " \"" ++ utf16 "T"
                ++ utf16 "\")"))
      ∧ testRender ⟨utf16 "slug-a", none⟩
          ([⟨utf16 "x", utf16 "/t/x/", utf16 "X"⟩]
            ++ ⟨utf16 "slug-a", utf16 "/t/slug-a/", utf16 "T"⟩
              :: [⟨utf16 "slug-a", utf16 "/t/other/", utf16 "O"⟩]) = .ok (utf16 "/t/slug-a/")
      ∧ postRender ⟨utf16 "slug-a", none⟩
          ([⟨utf16 "x", utf16 "/t/x/", utf16 "X"⟩]
            ++ ⟨utf16 "slug-a", utf16 "/t/slug-a/", utf16 "T"⟩
              :: [⟨utf16 "slug-a", utf16 "/t/other/", utf16 "O"⟩]) = .ok (utf16 "/t/slug-a/")
      ∧ testRender (testParse (utf16 "slug-a Some Label"))
          ([⟨utf16 "x", utf16 "/t/x/", utf16 "X"⟩]
            ++ ⟨utf16 "slug-a", utf16 "/t/slug-a/", utf16 "T"⟩
              :: [⟨utf16 "slug-a", utf16 "/t/other/", utf16 "O"⟩])
          = .ok (utf16 "[Some Label](/t/slug-a/ \"T\")") :=
  have h := render_found (utf16 "slug-a") [⟨utf16 "x", utf16 "/t/x/", utf16 "X"⟩]
    [⟨utf16 "slug-a", utf16 "/t/other/", utf16 "O"⟩]
    ⟨utf16 "slug-a", utf16 "/t/slug-a/", utf16 "T"⟩ (by decide) rfl
  ⟨h.1, h.2.1, h.2.2.1, h.2.2.2 rfl rfl rfl⟩

/-! ## The transform: the gate on the output path -/

/-- C7: when the page's output path is absent, or is a string that does not end in
`.html`, the transform returns the content unchanged, whatever the purifier, the
stylesheet minifier and the HTML minifier do. -/
theorem htmlMinTransform_other_path {ε : Type} (env : Collaborators ε) (fullCss : JSString)
    (NO_MINIFY outputPath : Option JSString) (content : JSString)
    (h : ∀ p, outputPath = some p → endsWith p (utf16 ".html") = false) :
    htmlMinTransform env fullCss NO_MINIFY outputPath content = .ok content := by
  cases outputPath with
  | none => simp [htmlMinTransform, truthyOpt]; rfl
  | some p =>
    have hp := h p rfl
    simp [htmlMinTransform, hp]; rfl

/-- Witness of C7: the page `feed.xml` and a page without output path, with collaborators
that would discard the content or fail. -/
theorem htmlMinTransform_other_path_witness :
    @htmlMinTransform Unit ⟨fun _ _ => .ok [], fun _ => .error (), fun _ => .ok []⟩
        (utf16 "p\x7bcolor:red\x7d") none (some (utf16 "feed.xml")) (utf16 "<a> l'oe... :</a>")
        = .ok (utf16 "<a> l'oe... :</a>")
      ∧ @htmlMinTransform Unit ⟨fun _ _ => .ok [], fun _ => .error (), fun _ => .ok []⟩
        (utf16 "p\x7bcolor:red\x7d") none none (utf16 "<a> l'oe... :</a>")
        = .ok (utf16 "<a> l'oe... :</a>") :=
  ⟨htmlMinTransform_other_path _ _ _ _ _ (by
      intro p hp
      cases hp
      decide),
    htmlMinTransform_other_path _ _ _ _ _ (by intro p hp; cases hp)⟩

/-! ## The transform: injection of the stylesheet -/

theorem getSubstitution_of_no_dollar (matched str : JSString) (position : Nat)
    (template : JSString) (h : 36 ∉ template) :
    getSubstitution matched str position template = template := by
  induction template using getSubstitution.induct matched str position with
  | case1 => simp [getSubstitution]
  | case2 c => simp [getSubstitution]
  | case3 c d rest hc ih => simp [hc.1] at h
  | case4 c d rest _ hc ih => simp [hc.1] at h
  | case5 c d rest _ _ hc ih => simp [hc.1] at h
  | case6 c d rest _ _ _ hc ih => simp [hc.1] at h
  | case7 c d rest h1 h2 h3 h4 ih =>
    have hrest : 36 ∉ d :: rest := fun hm => h (List.mem_cons_of_mem c hm)
    rw [getSubstitution, if_neg h1, if_neg h2, if_neg h3, if_neg h4, ih hrest]

/-- Stage 4 on a page without `</head>`: the content is returned unchanged. -/
theorem injectStyle_without_head (content cleanCss : JSString)
    (h : ¬ utf16 "</head>" <:+: content) : injectStyle content cleanCss = content := by
  simp [injectStyle, replaceString, indexOf, indexOfFrom_eq_neg_one _ _ 0 h]

/-- Stage 4 on a page whose first `</head>` comes after `pre`, for a stylesheet without
dollar sign: the style block is inserted right before that `</head>`. -/
theorem injectStyle_of_no_dollar (pre post cleanCss : JSString)
    (hfirst : ∀ j, j < pre.length →
      ¬ utf16 "</head>" <+: (pre ++ (utf16 "</head>" ++ post)).drop j)
    (h : 36 ∉ cleanCss) :
    injectStyle (pre ++ (utf16 "</head>" ++ post)) cleanCss
      = pre ++ (utf16 "<style>" ++ cleanCss ++ utf16 "</style>") ++ (utf16 "</head>" ++ post) := by
  have hidx := indexOfFrom_first (utf16 "</head>") pre post 0 hfirst
  have htpl : 36 ∉ utf16 "<style>" ++ cleanCss ++ utf16 "</style></head>" := by
    have h1 : 36 ∉ utf16 "<style>" := by decide
    have h2 : 36 ∉ utf16 "</style></head>" := by decide
    simp [h, h1, h2]
  have hne : ¬ (((0 + pre.length : Nat) : Int) = -1) := by omega
  have hsplit : utf16 "</style></head>" = utf16 "</style>" ++ utf16 "</head>" := by decide
  have hlen : (utf16 "</head>").length = 7 := by decide
  have hd : List.drop (pre.length + 7) (pre ++ (utf16 "</head>" ++ post)) = post := by
    rw [← List.append_assoc, List.drop_append_eq_append_drop]
    simp [hlen]
  simp only [injectStyle, replaceString, indexOf, hidx, hne, if_false,
    getSubstitution_of_no_dollar _ _ _ _ htpl, Int.toNat_ofNat, Nat.zero_add, hlen, hd]
  rw [hsplit]
  simp [List.append_assoc]

/-- C6 on failing inputs. With the page `<head></head><body>x</body>` and the
stylesheet `.p::before{content:'$'}`, the dollar sign and the quote after it form the
pattern that stands for the text after the match, and stage 4 inserts a style block that
holds the body of the page. With the page `<head></head>` and a stylesheet that holds
two dollar signs in a row, the style block holds a single dollar sign. In both cases the
result is not the page with the stylesheet, wrapped in `<style>` and `</style>`, before
`</head>`. -/
theorem injectStyle_dollar_pattern :
    injectStyle (utf16 "<head></head><body>x</body>") (utf16 ".p::before\x7bcontent:'$'\x7d")
        = utf16 "<head><style>.p::before\x7bcontent:'<body>x</body>\x7d</style></head><body>x</body>"
      ∧ injectStyle (utf16 "<head></head><body>x</body>")
          (utf16 ".p::before\x7bcontent:'$'\x7d")
        ≠ utf16 "<head>" ++ (utf16 "<style>" ++ utf16 ".p::before\x7bcontent:'$'\x7d"
            ++ utf16 "</style>") ++ utf16 "</head><body>x</body>"
      ∧ injectStyle (utf16 "<head></head>") (utf16 "b::after\x7bcontent:\"$$\"\x7d")
        = utf16 "<head><style>b::after\x7bcontent:\"$\"\x7d</style></head>"
      ∧ injectStyle (utf16 "<head></head>") (utf16 "b::after\x7bcontent:\"$$\"\x7d")
        ≠ utf16 "<head>" ++ (utf16 "<style>" ++ utf16 "b::after\x7bcontent:\"$$\"\x7d"
            ++ utf16 "</style>") ++ utf16 "</head>" := by
  decide

/-! ## The transform: typography -/

theorem PairFree.after {A B : Nat → Bool} {x : Nat} {l : JSString}
    (h : PairFree A B (x :: l)) : PairFree A B l :=
  List.Chain'.tail h

theorem PairFree.head_pair {A B : Nat → Bool} {x y : Nat} {l : JSString}
    (h : PairFree A B (x :: y :: l)) : ¬ (A x = true ∧ B y = true) :=
  (List.chain'_cons.mp h).1

theorem PairFree.cons_left {A B : Nat → Bool} {x : Nat} {l : JSString}
    (hx : A x = false) (h : PairFree A B l) : PairFree A B (x :: l) :=
  List.Chain'.cons' h (fun _ _ hy => by simp [hx] at hy)

theorem PairFree.cons_head {A B : Nat → Bool} {x : Nat} {l : JSString}
    (h : PairFree A B l) (hy : ∀ y ∈ l.head?, ¬ (A x = true ∧ B y = true)) :
    PairFree A B (x :: l) :=
  List.Chain'.cons' h hy

theorem PairFree.nbsp_append {A B : Nat → Bool} {l : JSString}
    (hA : ∀ c ∈ nbsp, A c = false) (h : PairFree A B l) : PairFree A B (nbsp ++ l) := by
  simp only [nbsp, List.mem_cons, List.mem_singleton, forall_eq_or_imp, forall_eq,
    List.not_mem_nil, false_implies, implies_true, and_true] at hA
  obtain ⟨h1, h2, h3, h4, h5, h6⟩ := hA
  exact (((((h.cons_left h6).cons_left h5).cons_left h4).cons_left h3).cons_left h2).cons_left h1

theorem PairFree.excludes {A B : Nat → Bool} {s : JSString} (h : PairFree A B s)
    (a b : Nat) (ha : A a = true) (hb : B b = true) : ¬ [a, b] <:+: s := by
  intro hin
  have := List.Chain'.infix h hin
  exact (List.chain'_cons.mp this).1 ⟨ha, hb⟩

theorem head_nbspBeforePunct (s : JSString) :
    ∀ y ∈ (nbspBeforePunct s).head?, y = 38 ∨ y ∈ s.head? := by
  induction s using nbspBeforePunct.induct with
  | case1 => simp [nbspBeforePunct]
  | case2 a => simp [nbspBeforePunct]
  | case3 a b rest h ih => simp [nbspBeforePunct, h, nbsp]
  | case4 a b rest h ih => simp [nbspBeforePunct, h]

theorem head_nbspAfterGuillemet (s : JSString) :
    (nbspAfterGuillemet s).head? = s.head? := by
  induction s using nbspAfterGuillemet.induct with
  | case1 => simp [nbspAfterGuillemet]
  | case2 a => simp [nbspAfterGuillemet]
  | case3 a b rest h ih => simp [nbspAfterGuillemet, h]
  | case4 a b rest h ih => simp [nbspAfterGuillemet, h]

theorem head_apostrophe (s : JSString) : (apostrophe s).head? = s.head? := by
  induction s using apostrophe.induct with
  | case1 => simp [apostrophe]
  | case2 a => simp [apostrophe]
  | case3 a b => simp [apostrophe]
  | case4 a b c rest h ih => simp [apostrophe, h]
  | case5 a b c rest h ih => simp [apostrophe, h]

theorem head_ligature (s : JSString) :
    ∀ y ∈ (ligature s).head?, y = 339 ∨ y ∈ s.head? := by
  induction s using ligature.induct with
  | case1 => simp [ligature]
  | case2 a => simp [ligature]
  | case3 a b rest h ih => simp [ligature, h]
  | case4 a b rest h ih => simp [ligature, h]

theorem head_ellipsis (s : JSString) :
    ∀ y ∈ (ellipsis s).head?, y = 8230 ∨ y ∈ s.head? := by
  induction s using ellipsis.induct with
  | case1 => simp [ellipsis]
  | case2 a => simp [ellipsis]
  | case3 a b => simp [ellipsis]
  | case4 a b c rest h ih => simp [ellipsis, h]
  | case5 a b c rest h ih => simp [ellipsis, h]

/-! ### The substitutions keep a text free of a pair -/

theorem pairFree_nbspBeforePunct (s : JSString) :
    PairFree (fun c => c == 32) isPunct (nbspBeforePunct s) := by
  induction s using nbspBeforePunct.induct with
  | case1 => simp [nbspBeforePunct, PairFree]
  | case2 a => simp [nbspBeforePunct, PairFree]
  | case3 a b rest h ih =>
    rw [nbspBeforePunct, if_pos h]
    have hb : b ≠ 32 := by
      rintro rfl
      simp [isPunct] at h
    exact PairFree.nbsp_append (by decide) (PairFree.cons_left (by simpa using hb) ih)
  | case4 a b rest h ih =>
    rw [nbspBeforePunct, if_neg h]
    refine PairFree.cons_head ih ?_
    intro y hy
    rcases head_nbspBeforePunct (b :: rest) y hy with rfl | hy
    · simp [isPunct]
    · simp at hy
      subst hy
      simpa using h

theorem pairFree_nbspAfterGuillemet_self (s : JSString) :
    PairFree (fun c => c == 171) (fun c => c == 32) (nbspAfterGuillemet s) := by
  induction s using nbspAfterGuillemet.induct with
  | case1 => simp [nbspAfterGuillemet, PairFree]
  | case2 a => simp [nbspAfterGuillemet, PairFree]
  | case3 a b rest h ih =>
    rw [nbspAfterGuillemet, if_pos h]
    refine PairFree.cons_head (PairFree.nbsp_append (by decide) ih) ?_
    simp [nbsp]
  | case4 a b rest h ih =>
    rw [nbspAfterGuillemet, if_neg h]
    refine PairFree.cons_head ih ?_
    intro y hy
    rw [head_nbspAfterGuillemet] at hy
    simp at hy
    subst hy
    simpa using h

theorem pairFree_nbspAfterGuillemet {A B : Nat → Bool} (hA : ∀ c ∈ nbsp, A c = false)
    (hB : B 38 = false) (s : JSString) (h : PairFree A B s) :
    PairFree A B (nbspAfterGuillemet s) := by
  induction s using nbspAfterGuillemet.induct with
  | case1 => simpa [nbspAfterGuillemet] using h
  | case2 a => simpa [nbspAfterGuillemet] using h
  | case3 a b rest hm ih =>
    rw [nbspAfterGuillemet, if_pos hm]
    refine PairFree.cons_head (PairFree.nbsp_append hA (ih h.after.after)) ?_
    simp [nbsp, hB]
  | case4 a b rest hm ih =>
    rw [nbspAfterGuillemet, if_neg hm]
    refine PairFree.cons_head (ih h.after) ?_
    intro y hy
    rw [head_nbspAfterGuillemet] at hy
    simp at hy
    subst hy
    exact h.head_pair

theorem pairFree_apostrophe {A B : Nat → Bool} (hA : A 8217 = false) (hB : B 8217 = false)
    (s : JSString) (h : PairFree A B s) : PairFree A B (apostrophe s) := by
  induction s using apostrophe.induct with
  | case1 => simpa [apostrophe] using h
  | case2 a => simpa [apostrophe] using h
  | case3 a b => simpa [apostrophe] using h
  | case4 a b c rest hm ih =>
    rw [apostrophe, if_pos hm]
    refine PairFree.cons_head (PairFree.cons_head (PairFree.cons_left hA (ih h.after.after.after)) ?_) ?_
    · simp [hB]
    · simpa using h.head_pair
  | case5 a b c rest hm ih =>
    rw [apostrophe, if_neg hm]
    refine PairFree.cons_head (ih h.after) ?_
    intro y hy
    rw [head_apostrophe] at hy
    simp at hy
    subst hy
    exact h.head_pair

theorem pairFree_ligature {A B : Nat → Bool} (hA : A 339 = false) (hB : B 339 = false)
    (s : JSString) (h : PairFree A B s) : PairFree A B (ligature s) := by
  induction s using ligature.induct with
  | case1 => simpa [ligature] using h
  | case2 a => simpa [ligature] using h
  | case3 a b rest hm ih =>
    rw [ligature, if_pos hm]
    exact PairFree.cons_left hA (ih h.after.after)
  | case4 a b rest hm ih =>
    rw [ligature, if_neg hm]
    refine PairFree.cons_head (ih h.after) ?_
    intro y hy
    rcases head_ligature (b :: rest) y hy with rfl | hy
    · simp [hB]
    · simp at hy
      subst hy
      exact h.head_pair

theorem pairFree_ellipsis {A B : Nat → Bool} (hA : A 8230 = false) (hB : B 8230 = false)
    (s : JSString) (h : PairFree A B s) : PairFree A B (ellipsis s) := by
  induction s using ellipsis.induct with
  | case1 => simpa [ellipsis] using h
  | case2 a => simpa [ellipsis] using h
  | case3 a b => simpa [ellipsis] using h
  | case4 a b c rest hm ih =>
    rw [ellipsis, if_pos hm]
    exact PairFree.cons_left hA (ih h.after.after.after)
  | case5 a b c rest hm ih =>
    rw [ellipsis, if_neg hm]
    refine PairFree.cons_head (ih h.after) ?_
    intro y hy
    rcases head_ellipsis (b :: c :: rest) y hy with rfl | hy
    · simp [hB]
    · simp at hy
      subst hy
      exact h.head_pair

theorem pairFree_stage1_space_punct (t : JSString) :
    PairFree (fun c => c == 32) isPunct (stage1 t) :=
  pairFree_ellipsis (by decide) (by decide) _
    (pairFree_ligature (by decide) (by decide) _
      (pairFree_apostrophe (by decide) (by decide) _
        (pairFree_nbspAfterGuillemet (by decide) (by decide) _
          (pairFree_nbspBeforePunct t))))

theorem pairFree_stage1_guillemet_space (t : JSString) :
    PairFree (fun c => c == 171) (fun c => c == 32) (stage1 t) :=
  pairFree_ellipsis (by decide) (by decide) _
    (pairFree_ligature (by decide) (by decide) _
      (pairFree_apostrophe (by decide) (by decide) _
        (pairFree_nbspAfterGuillemet_self _)))

theorem prefix_apostrophe_iff (p : JSString) (hp : ∀ x ∈ p, x ≠ 39 ∧ x ≠ 8217) (s : JSString) :
    p <+: apostrophe s ↔ p <+: s := by
  induction s using apostrophe.induct generalizing p with
  | case1 => simp [apostrophe]
  | case2 a => simp [apostrophe]
  | case3 a b => simp [apostrophe]
  | case4 a b c rest hm ih =>
    rw [apostrophe, if_pos hm]
    obtain ⟨-, -, rfl⟩ := hm
    match p, hp with
    | [], _ => simp
    | [x], _ => simp [List.cons_prefix_cons]
    | [x, y], _ => simp [List.cons_prefix_cons]
    | x :: y :: z :: p', hp =>
      have hz := hp z (by simp)
      simp only [List.cons_prefix_cons]
      constructor
      · rintro ⟨-, -, h, -⟩
        exact absurd h hz.2
      · rintro ⟨-, -, h, -⟩
        exact absurd h hz.1
  | case5 a b c rest hm ih =>
    rw [apostrophe, if_neg hm]
    match p, hp with
    | [], _ => simp
    | x :: p', hp =>
      simp only [List.cons_prefix_cons]
      rw [ih p' (fun x hx => hp x (List.mem_cons_of_mem _ hx))]

theorem prefix_ligature_iff (p : JSString) (hp : ∀ x ∈ p, x ≠ 111 ∧ x ≠ 339) (s : JSString) :
    p <+: ligature s ↔ p <+: s := by
  induction s using ligature.induct generalizing p with
  | case1 => simp [ligature]
  | case2 a => simp [ligature]
  | case3 a b rest hm ih =>
    rw [ligature, if_pos hm]
    obtain ⟨rfl, rfl⟩ := hm
    match p, hp with
    | [], _ => simp
    | x :: p', hp =>
      have hx := hp x (by simp)
      simp only [List.cons_prefix_cons]
      constructor
      · rintro ⟨h, -⟩
        exact absurd h hx.2
      · rintro ⟨h, -⟩
        exact absurd h hx.1
  | case4 a b rest hm ih =>
    rw [ligature, if_neg hm]
    match p, hp with
    | [], _ => simp
    | x :: p', hp =>
      simp only [List.cons_prefix_cons]
      rw [ih p' (fun x hx => hp x (List.mem_cons_of_mem _ hx))]

theorem prefix_ellipsis_iff (p : JSString) (hp : ∀ x ∈ p, x ≠ 46 ∧ x ≠ 8230) (s : JSString) :
    p <+: ellipsis s ↔ p <+: s := by
  induction s using ellipsis.induct generalizing p with
  | case1 => simp [ellipsis]
  | case2 a => simp [ellipsis]
  | case3 a b => simp [ellipsis]
  | case4 a b c rest hm ih =>
    rw [ellipsis, if_pos hm]
    obtain ⟨rfl, rfl, rfl⟩ := hm
    match p, hp with
    | [], _ => simp
    | x :: p', hp =>
      have hx := hp x (by simp)
      simp only [List.cons_prefix_cons]
      constructor
      · rintro ⟨h, -⟩
        exact absurd h hx.2
      · rintro ⟨h, -⟩
        exact absurd h hx.1
  | case5 a b c rest hm ih =>
    rw [ellipsis, if_neg hm]
    match p, hp with
    | [], _ => simp
    | x :: p', hp =>
      simp only [List.cons_prefix_cons]
      rw [ih p' (fun x hx => hp x (List.mem_cons_of_mem _ hx))]

theorem count_apostrophe (p : JSString) (hne : p ≠ []) (hp : ∀ x ∈ p, x ≠ 39 ∧ x ≠ 8217)
    (s : JSString) : countOccurrences p (apostrophe s) = countOccurrences p s := by
  have hnil : ¬ p <+: [] := by simpa using hne
  have hcons : ∀ x (l : JSString), x ∉ p → ¬ p <+: x :: l := by
    intro x l hx hpre
    match p, hne, hx, hpre with
    | y :: p', _, hx, hpre =>
      exact hx (by simp [(List.cons_prefix_cons.mp hpre).1])
  induction s using apostrophe.induct with
  | case1 => simp [apostrophe]
  | case2 a => simp [apostrophe]
  | case3 a b => simp [apostrophe]
  | case4 a b c rest hm ih =>
    have h1 := prefix_apostrophe_iff p hp (a :: b :: c :: rest)
    have h2 := prefix_apostrophe_iff p hp (b :: c :: rest)
    rw [apostrophe, if_pos hm] at h1 ⊢
    obtain ⟨-, -, rfl⟩ := hm
    have h3 : ¬ p <+: 39 :: rest := hcons _ _ (fun h => (hp _ h).1 rfl)
    have h4 : ¬ p <+: 8217 :: apostrophe rest := hcons _ _ (fun h => (hp _ h).2 rfl)
    have h5 : p <+: b :: 8217 :: apostrophe rest ↔ p <+: b :: 39 :: rest := by
      match p, hne, hp with
      | [x], _, _ => simp [List.cons_prefix_cons]
      | x :: y :: p', _, hp =>
        have hy := hp y (by simp)
        simp only [List.cons_prefix_cons]
        constructor
        · rintro ⟨-, h, -⟩
          exact absurd h hy.2
        · rintro ⟨-, h, -⟩
          exact absurd h hy.1
    simp only [countOccurrences, h1, h3, h4, h5, ih, if_false]
  | case5 a b c rest hm ih =>
    have h1 := prefix_apostrophe_iff p hp (a :: b :: c :: rest)
    rw [apostrophe, if_neg hm] at h1 ⊢
    simp only [countOccurrences] at ih ⊢
    simp only [h1, ih]

theorem not_prefix_cons_of_not_mem (p : JSString) (hne : p ≠ []) (x : Nat) (l : JSString)
    (hx : x ∉ p) : ¬ p <+: x :: l := by
  intro hpre
  match p, hne, hx, hpre with
  | y :: p', _, hx, hpre =>
    exact hx (by simp [(List.cons_prefix_cons.mp hpre).1])

theorem count_ligature (p : JSString) (hne : p ≠ [])
    (hp : ∀ x ∈ p, x ≠ 111 ∧ x ≠ 101 ∧ x ≠ 339) (s : JSString) :
    countOccurrences p (ligature s) = countOccurrences p s := by
  have hnil : ¬ p <+: [] := by simpa using hne
  have hp' : ∀ x ∈ p, x ≠ 111 ∧ x ≠ 339 := fun x hx => ⟨(hp x hx).1, (hp x hx).2.2⟩
  induction s using ligature.induct with
  | case1 => simp [ligature]
  | case2 a => simp [ligature]
  | case3 a b rest hm ih =>
    rw [ligature, if_pos hm]
    obtain ⟨rfl, rfl⟩ := hm
    have h1 : ¬ p <+: 111 :: 101 :: rest :=
      not_prefix_cons_of_not_mem p hne _ _ (fun h => (hp _ h).1 rfl)
    have h2 : ¬ p <+: 101 :: rest :=
      not_prefix_cons_of_not_mem p hne _ _ (fun h => (hp _ h).2.1 rfl)
    have h3 : ¬ p <+: 339 :: ligature rest :=
      not_prefix_cons_of_not_mem p hne _ _ (fun h => (hp _ h).2.2 rfl)
    simp only [countOccurrences, h1, h2, h3, ih, if_false, Nat.zero_add]
  | case4 a b rest hm ih =>
    have h1 := prefix_ligature_iff p hp' (a :: b :: rest)
    rw [ligature, if_neg hm] at h1 ⊢
    simp only [countOccurrences] at ih ⊢
    simp only [h1, ih]

theorem count_ellipsis (p : JSString) (hne : p ≠ [])
    (hp : ∀ x ∈ p, x ≠ 46 ∧ x ≠ 8230) (s : JSString) :
    countOccurrences p (ellipsis s) = countOccurrences p s := by
  have hnil : ¬ p <+: [] := by simpa using hne
  induction s using ellipsis.induct with
  | case1 => simp [ellipsis]
  | case2 a => simp [ellipsis]
  | case3 a b => simp [ellipsis]
  | case4 a b c rest hm ih =>
    rw [ellipsis, if_pos hm]
    obtain ⟨rfl, rfl, rfl⟩ := hm
    have h1 : ∀ l, ¬ p <+: 46 :: l :=
      fun l => not_prefix_cons_of_not_mem p hne _ _ (fun h => (hp _ h).1 rfl)
    have h3 : ¬ p <+: 8230 :: ellipsis rest :=
      not_prefix_cons_of_not_mem p hne _ _ (fun h => (hp _ h).2 rfl)
    simp only [countOccurrences, h1, h3, ih, if_false, Nat.zero_add]
  | case5 a b c rest hm ih =>
    have h1 := prefix_ellipsis_iff p hp (a :: b :: c :: rest)
    rw [ellipsis, if_neg hm] at h1 ⊢
    simp only [countOccurrences] at ih ⊢
    simp only [h1, ih]

/-! ### Fixed points of the two non-breaking-space rules -/

theorem nbspBeforePunct_of_pairFree (s : JSString)
    (h : PairFree (fun c => c == 32) isPunct s) : nbspBeforePunct s = s := by
  induction s using nbspBeforePunct.induct with
  | case1 => simp [nbspBeforePunct]
  | case2 a => simp [nbspBeforePunct]
  | case3 a b rest hm ih =>
    exact absurd (by simpa using hm) (List.chain'_cons.mp h).1
  | case4 a b rest hm ih =>
    rw [nbspBeforePunct, if_neg hm, ih (List.Chain'.tail h)]

theorem nbspAfterGuillemet_of_pairFree (s : JSString)
    (h : PairFree (fun c => c == 171) (fun c => c == 32) s) : nbspAfterGuillemet s = s := by
  induction s using nbspAfterGuillemet.induct with
  | case1 => simp [nbspAfterGuillemet]
  | case2 a => simp [nbspAfterGuillemet]
  | case3 a b rest hm ih =>
    exact absurd (by simpa using hm) (List.chain'_cons.mp h).1
  | case4 a b rest hm ih =>
    rw [nbspAfterGuillemet, if_neg hm, ih (List.Chain'.tail h)]

theorem nbspBeforePunct_eq_spec (s : JSString) :
    nbspBeforePunct s = nbspBeforePunctSpec s := by
  induction s using nbspBeforePunct.induct with
  | case1 => simp [nbspBeforePunct, nbspBeforePunctSpec]
  | case2 a => simp [nbspBeforePunct, nbspBeforePunctSpec]
  | case3 a b rest hm ih =>
    rw [nbspBeforePunct, if_pos hm, nbspBeforePunctSpec, if_pos hm, ih]
    have hb : b ≠ 32 := by
      rintro rfl
      simp [isPunct] at hm
    cases rest with
    | nil => simp [nbspBeforePunctSpec]
    | cons c rest => simp [nbspBeforePunctSpec, hb]
  | case4 a b rest hm ih =>
    rw [nbspBeforePunct, if_neg hm, nbspBeforePunctSpec, if_neg hm, ih]
    simp

theorem Windows3.later {Q : Nat → Nat → Nat → Prop} {x : Nat} {l : JSString}
    (h : Windows3 Q (x :: l)) : Windows3 Q l := by
  match l, h with
  | [], _ => trivial
  | [_], _ => trivial
  | _ :: _ :: _, h => exact h.2

theorem Windows3.cons {Q : Nat → Nat → Nat → Prop} {x : Nat} {l : JSString}
    (h : Windows3 Q l) (hx : ∀ y z r, l = y :: z :: r → Q x y z) : Windows3 Q (x :: l) := by
  match l, h, hx with
  | [], _, _ => trivial
  | [_], _, _ => trivial
  | y :: z :: r, h, hx => exact ⟨hx y z r rfl, h⟩

theorem Windows3.window {Q : Nat → Nat → Nat → Prop} {s : JSString}
    (h : Windows3 Q s) (a b c : Nat) (hin : [a, b, c] <:+: s) : Q a b c := by
  induction s with
  | nil => simp at hin
  | cons x l ih =>
    rcases List.infix_cons_iff.mp hin with hpre | hin
    · match l, h, hpre with
      | y :: z :: r, h, hpre =>
        simp only [List.cons_prefix_cons] at hpre
        obtain ⟨rfl, rfl, rfl, -⟩ := hpre
        exact h.1
      | [y], _, hpre => simp [List.cons_prefix_cons] at hpre
      | [], _, hpre => simp [List.cons_prefix_cons] at hpre
    · exact ih h.later hin

theorem windows3_of_windows {Q : Nat → Nat → Nat → Prop} (s : JSString)
    (h : ∀ a b c, [a, b, c] <:+: s → Q a b c) : Windows3 Q s := by
  induction s with
  | nil => trivial
  | cons x l ih =>
    refine Windows3.cons (ih fun a b c hin => h a b c (List.infix_cons hin)) ?_
    rintro y z r rfl
    exact h x y z ⟨[], r, by simp⟩

theorem take_two_apostrophe (s : JSString) : (apostrophe s).take 2 = s.take 2 := by
  induction s using apostrophe.induct with
  | case1 => simp [apostrophe]
  | case2 a => simp [apostrophe]
  | case3 a b => simp [apostrophe]
  | case4 a b c rest h ih => simp [apostrophe, h]
  | case5 a b c rest h ih =>
    rw [apostrophe, if_neg h]
    have := congrArg List.head? (show (apostrophe (b :: c :: rest)).take 1 = [b] by
      have := congrArg (List.take 1) ih
      simpa [List.take_take] using this)
    cases hq : apostrophe (b :: c :: rest) with
    | nil => simp [hq] at this
    | cons y r =>
      simp [hq] at this
      simp [this]

/-- An apostrophe in second place of the output of the fourth substitution was in
second place of its input, or right after a leading `oe`. -/
theorem ligature_second_apostrophe (s : JSString) (y : Nat) (r : JSString)
    (h : ligature s = y :: 39 :: r) :
    (∃ q, s = y :: 39 :: q) ∨ (y = 339 ∧ ∃ q, s = 111 :: 101 :: 39 :: q) := by
  have hhead : ∀ l : JSString, ∀ r, ligature l = 39 :: r → ∃ q, l = 39 :: q := by
    intro l r hl
    have := head_ligature l 39 (by simp [hl])
    simp at this
    cases l with
    | nil => simp at this
    | cons x l => exact ⟨l, by simp at this; rw [this]⟩
  match s, h with
  | [], h => simp [ligature] at h
  | [a], h => simp [ligature] at h
  | a :: b :: rest, h =>
    rw [ligature] at h
    split at h
    · rename_i hm
      obtain ⟨rfl, rfl⟩ := hm
      simp only [List.cons.injEq] at h
      obtain ⟨q, rfl⟩ := hhead rest r h.2
      exact Or.inr ⟨h.1.symm, q, rfl⟩
    · simp only [List.cons.injEq] at h
      obtain ⟨q, hq⟩ := hhead (b :: rest) r h.2
      exact Or.inl ⟨_, by rw [h.1, hq]⟩

/-- An apostrophe in second place of the output of the fifth substitution was in
second place of its input, or right after three leading periods. -/
theorem ellipsis_second_apostrophe (s : JSString) (y : Nat) (r : JSString)
    (h : ellipsis s = y :: 39 :: r) :
    (∃ q, s = y :: 39 :: q) ∨ (y = 8230 ∧ ∃ q, s = 46 :: 46 :: 46 :: 39 :: q) := by
  have hhead : ∀ l : JSString, ∀ r, ellipsis l = 39 :: r → ∃ q, l = 39 :: q := by
    intro l r hl
    have := head_ellipsis l 39 (by simp [hl])
    simp at this
    cases l with
    | nil => simp at this
    | cons x l => exact ⟨l, by simp at this; rw [this]⟩
  match s, h with
  | [], h => simp [ellipsis] at h
  | [a], h => simp [ellipsis] at h
  | [a, b], h =>
    simp only [ellipsis, List.cons.injEq] at h
    exact Or.inl ⟨[], by rw [h.1, h.2.1]⟩
  | a :: b :: c :: rest, h =>
    rw [ellipsis] at h
    split at h
    · rename_i hm
      obtain ⟨rfl, rfl, rfl⟩ := hm
      simp only [List.cons.injEq] at h
      obtain ⟨q, rfl⟩ := hhead rest r h.2
      exact Or.inr ⟨h.1.symm, q, rfl⟩
    · simp only [List.cons.injEq] at h
      obtain ⟨q, hq⟩ := hhead (b :: c :: rest) r h.2
      exact Or.inl ⟨_, by rw [h.1, hq]⟩

theorem not_excused_oe : ¬ Excused 111 101 := by
  simp [Excused, isLineTerminator]

theorem not_excused_periods : ¬ Excused 46 46 := by
  simp [Excused, isLineTerminator]

theorem settled_apostrophe (s : JSString) : Windows3 Settled (apostrophe s) := by
  induction s using apostrophe.induct with
  | case1 => simp [apostrophe, Windows3]
  | case2 a => simp [apostrophe, Windows3]
  | case3 a b => simp [apostrophe, Windows3]
  | case4 a b c rest hm ih =>
    rw [apostrophe, if_pos hm]
    refine Windows3.cons (Windows3.cons (Windows3.cons ih ?_) ?_) ?_
    · intro y z r _ _
      exact Or.inr (Or.inr (Or.inl rfl))
    · intro y z r hr _
      simp only [List.cons.injEq] at hr
      exact Or.inr (Or.inr (Or.inr hr.1.symm))
    · intro y z r hr hz
      simp only [List.cons.injEq] at hr
      rw [← hr.2.1] at hz
      cases hz
  | case5 a b c rest hm ih =>
    rw [apostrophe, if_neg hm]
    refine Windows3.cons ih ?_
    intro y z r hr hz
    have h2 := take_two_apostrophe (b :: c :: rest)
    rw [hr] at h2
    simp only [List.take_succ_cons, List.take_zero, List.cons.injEq, and_true] at h2
    obtain ⟨rfl, rfl⟩ := h2
    subst hz
    by_cases ha : a = 45
    · exact Or.inl ha
    · refine Or.inr (Or.inl ?_)
      by_contra hb
      exact hm ⟨ha, by simpa using hb, rfl⟩

theorem settled_ligature (s : JSString) (h : Windows3 Settled s) :
    Windows3 Settled (ligature s) := by
  induction s using ligature.induct with
  | case1 => simpa [ligature] using h
  | case2 a => simpa [ligature] using h
  | case3 a b rest hm ih =>
    rw [ligature, if_pos hm]
    obtain ⟨rfl, rfl⟩ := hm
    refine Windows3.cons (ih h.later.later) ?_
    intro y z r hr hz
    subst hz
    rcases ligature_second_apostrophe rest y r hr with ⟨q, rfl⟩ | ⟨-, q, rfl⟩
    · have := h.later.1 rfl
      rcases this with h1 | h1 | h1 | h1
      · cases h1
      · exact Or.inr (Or.inl h1)
      · cases h1
      · exact Or.inr (Or.inr (Or.inr h1))
    · have := h.later.later.1 rfl
      exact absurd this not_excused_oe
  | case4 a b rest hm ih =>
    rw [ligature, if_neg hm]
    refine Windows3.cons (ih h.later) ?_
    intro y z r hr hz
    subst hz
    rcases ligature_second_apostrophe (b :: rest) y r hr with ⟨q, hq⟩ | ⟨-, q, hq⟩
    · rw [hq] at h
      simp only [List.cons.injEq] at hq
      exact h.1 rfl
    · rw [hq] at h
      have := h.later.1 rfl
      exact absurd this not_excused_oe

theorem settled_ellipsis (s : JSString) (h : Windows3 Settled s) :
    Windows3 Settled (ellipsis s) := by
  induction s using ellipsis.induct with
  | case1 => simpa [ellipsis] using h
  | case2 a => simpa [ellipsis] using h
  | case3 a b => simpa [ellipsis] using h
  | case4 a b c rest hm ih =>
    rw [ellipsis, if_pos hm]
    obtain ⟨rfl, rfl, rfl⟩ := hm
    refine Windows3.cons (ih h.later.later.later) ?_
    intro y z r hr hz
    subst hz
    rcases ellipsis_second_apostrophe rest y r hr with ⟨q, rfl⟩ | ⟨-, q, rfl⟩
    · have := h.later.later.1 rfl
      rcases this with h1 | h1 | h1 | h1
      · cases h1
      · exact Or.inr (Or.inl h1)
      · cases h1
      · exact Or.inr (Or.inr (Or.inr h1))
    · have := h.later.later.later.later.1 rfl
      exact absurd this not_excused_periods
  | case5 a b c rest hm ih =>
    rw [ellipsis, if_neg hm]
    refine Windows3.cons (ih h.later) ?_
    intro y z r hr hz
    subst hz
    rcases ellipsis_second_apostrophe (b :: c :: rest) y r hr with ⟨q, hq⟩ | ⟨-, q, hq⟩
    · rw [hq] at h
      exact h.1 rfl
    · rw [hq] at h
      have := h.later.later.1 rfl
      exact absurd this not_excused_periods

theorem settled_stage1 (t : JSString) : Windows3 Settled (stage1 t) :=
  settled_ellipsis _ (settled_ligature _ (settled_apostrophe _))

/-- The third substitution changes nothing in a text none of whose windows matches. -/
theorem apostrophe_of_no_match (s : JSString)
    (h : Windows3 (fun a b c => ¬ (a ≠ 45 ∧ isLineTerminator b = false ∧ c = 39)) s) :
    apostrophe s = s := by
  induction s using apostrophe.induct with
  | case1 => simp [apostrophe]
  | case2 a => simp [apostrophe]
  | case3 a b => simp [apostrophe]
  | case4 a b c rest hm ih => exact absurd hm h.1
  | case5 a b c rest hm ih => rw [apostrophe, if_neg hm, ih h.later]

/-- The fifth substitution leaves no three periods in a row. -/
theorem ellipsis_no_match (s : JSString) :
    Windows3 (fun a b c => ¬ (a = 46 ∧ b = 46 ∧ c = 46)) (ellipsis s) := by
  induction s using ellipsis.induct with
  | case1 => simp [ellipsis, Windows3]
  | case2 a => simp [ellipsis, Windows3]
  | case3 a b => simp [ellipsis, Windows3]
  | case4 a b c rest hm ih =>
    rw [ellipsis, if_pos hm]
    refine Windows3.cons ih ?_
    intro y z r _ h
    exact absurd h.1 (by decide)
  | case5 a b c rest hm ih =>
    rw [ellipsis, if_neg hm]
    refine Windows3.cons ih ?_
    rintro y z r hr ⟨rfl, rfl, rfl⟩
    apply hm
    have hb : b = 46 := by
      have := head_ellipsis (b :: c :: rest) 46 (by simp [hr])
      simpa using this
    subst hb
    refine ⟨rfl, rfl, ?_⟩
    cases rest with
    | nil =>
      simp only [ellipsis, List.cons.injEq] at hr
      exact hr.2.1
    | cons d rest =>
      rw [ellipsis] at hr
      split at hr
      · simp at hr
      · simp only [List.cons.injEq, true_and] at hr
        have := head_ellipsis (c :: d :: rest) 46 (by simp [hr])
        simpa using this

theorem ellipsis_of_no_match (s : JSString)
    (h : Windows3 (fun a b c => ¬ (a = 46 ∧ b = 46 ∧ c = 46)) s) : ellipsis s = s := by
  induction s using ellipsis.induct with
  | case1 => simp [ellipsis]
  | case2 a => simp [ellipsis]
  | case3 a b => simp [ellipsis]
  | case4 a b c rest hm ih => exact absurd hm h.1
  | case5 a b c rest hm ih => rw [ellipsis, if_neg hm, ih h.later]

theorem ellipsis_ellipsis (s : JSString) : ellipsis (ellipsis s) = ellipsis s :=
  ellipsis_of_no_match _ (ellipsis_no_match s)

/-! ### The third substitution, position by position -/

theorem length_apostrophe (s : JSString) : (apostrophe s).length = s.length := by
  induction s using apostrophe.induct with
  | case1 => simp [apostrophe]
  | case2 a => simp [apostrophe]
  | case3 a b => simp [apostrophe]
  | case4 a b c rest hm ih => simp [apostrophe, hm, ih]
  | case5 a b c rest hm ih =>
    rw [apostrophe, if_neg hm]
    simpa using ih

/-- Each unit of the output of the third substitution is the unit of the input at the
same position, unless that one is a straight apostrophe which follows a unit other than
a hyphen and then a unit other than a line terminator: then it may be U+2019. -/
theorem apostrophe_getElem (s : JSString) (i : Nat) :
    (apostrophe s)[i]? = s[i]?
      ∨ (s[i]? = some 39 ∧ (apostrophe s)[i]? = some 8217
          ∧ ∃ a b, s[i - 2]? = some a ∧ s[i - 1]? = some b ∧ 2 ≤ i
            ∧ a ≠ 45 ∧ isLineTerminator b = false) := by
  induction s using apostrophe.induct generalizing i with
  | case1 => simp [apostrophe]
  | case2 a => simp [apostrophe]
  | case3 a b => simp [apostrophe]
  | case4 a b c rest hm ih =>
    rw [apostrophe, if_pos hm]
    match i with
    | 0 => simp
    | 1 => simp
    | 2 =>
      right
      obtain ⟨h1, h2, rfl⟩ := hm
      exact ⟨by simp, by simp, a, b, by simp, by simp, le_refl _, h1, h2⟩
    | j + 3 =>
      rcases ih j with h | ⟨h1, h2, x, y, hx, hy, hj, hxy⟩
      · left
        simpa using h
      · right
        refine ⟨by simpa using h1, by simpa using h2, x, y, ?_, ?_, by omega, hxy⟩
        · obtain ⟨k, rfl⟩ : ∃ k, j = k + 2 := ⟨j - 2, by omega⟩
          simpa using hx
        · obtain ⟨k, rfl⟩ : ∃ k, j = k + 2 := ⟨j - 2, by omega⟩
          simpa using hy
  | case5 a b c rest hm ih =>
    rw [apostrophe, if_neg hm]
    match i with
    | 0 => simp
    | j + 1 =>
      rcases ih j with h | ⟨h1, h2, x, y, hx, hy, hj, hxy⟩
      · left
        simpa using h
      · right
        refine ⟨by simpa using h1, by simpa using h2, x, y, ?_, ?_, by omega, hxy⟩
        · obtain ⟨k, rfl⟩ : ∃ k, j = k + 2 := ⟨j - 2, by omega⟩
          simpa using hx
        · obtain ⟨k, rfl⟩ : ∃ k, j = k + 2 := ⟨j - 2, by omega⟩
          simpa using hy

/-- A straight apostrophe is replaced when the two units before it are no straight
apostrophes, the first no hyphen and the second no line terminator. -/
theorem apostrophe_replaces (s : JSString) (i a b : Nat)
    (ha : s[i]? = some a) (hb : s[i + 1]? = some b) (hc : s[i + 2]? = some 39)
    (ha1 : a ≠ 45) (ha2 : a ≠ 39) (hb1 : isLineTerminator b = false) (hb2 : b ≠ 39) :
    (apostrophe s)[i + 2]? = some 8217 := by
  induction s using apostrophe.induct generalizing i with
  | case1 => simp at ha
  | case2 x => simp at hb
  | case3 x y => simp at hc
  | case4 x y z rest hm ih =>
    rw [apostrophe, if_pos hm]
    obtain ⟨-, -, rfl⟩ := hm
    match i with
    | 0 => simp
    | 1 =>
      simp at hb
      exact absurd hb.symm hb2
    | 2 =>
      simp at ha
      exact absurd ha.symm ha2
    | j + 3 =>
      have := ih j (by simpa using ha) (by simpa using hb) (by simpa using hc)
      simpa using this
  | case5 x y z rest hm ih =>
    rw [apostrophe, if_neg hm]
    match i with
    | 0 =>
      simp at ha hb hc
      subst ha hb hc
      exact absurd ⟨ha1, hb1, rfl⟩ hm
    | j + 1 =>
      have := ih j (by simpa using ha) (by simpa using hb) (by simpa using hc)
      simpa using this

/-- C5: the first substitution turns every plain space that is followed by one of
`! ? : ; »` into `&nbsp;` and keeps every other unit; the output of stage 1 never
contains a plain space immediately followed by one of these characters; and stage 1
maps `a :b` to `a&nbsp;:b`. -/
theorem stage1_nbsp_before_punct (t : JSString) :
    (∀ c, isPunct c = true → ¬ [32, c] <:+: stage1 t)
      ∧ nbspBeforePunct t = nbspBeforePunctSpec t
      ∧ stage1 (utf16 "a :b") = utf16 "a&nbsp;:b" :=
  ⟨fun c hc => (pairFree_stage1_space_punct t).excludes 32 c (by decide) hc,
    nbspBeforePunct_eq_spec t, by decide⟩

/-- Witness of C5 on a text with a space before a colon, an exclamation mark and a
closing guillemet. -/
theorem stage1_nbsp_before_punct_witness :
    ¬ [32, 58] <:+: stage1 (utf16 "« a » : b !") :=
  (stage1_nbsp_before_punct (utf16 "« a » : b !")).1 58 (by decide)

/-- C8: on the output of stage 1 the two non-breaking-space substitutions change
nothing, and running stage 1 again leaves the number of occurrences of `&nbsp;`
unchanged. -/
theorem stage1_rerun_no_new_nbsp (t : JSString) :
    nbspBeforePunct (stage1 t) = stage1 t
      ∧ nbspAfterGuillemet (stage1 t) = stage1 t
      ∧ countOccurrences nbsp (stage1 (stage1 t)) = countOccurrences nbsp (stage1 t) := by
  have h1 := nbspBeforePunct_of_pairFree _ (pairFree_stage1_space_punct t)
  have h2 := nbspAfterGuillemet_of_pairFree _ (pairFree_stage1_guillemet_space t)
  refine ⟨h1, h2, ?_⟩
  have hne : nbsp ≠ [] := by decide
  conv_lhs => rw [stage1, h1, h2]
  rw [count_ellipsis nbsp hne (by decide), count_ligature nbsp hne (by decide),
    count_apostrophe nbsp hne (by decide)]

/-- The ellipsis substitution changes nothing in the output of stage 1. -/
theorem ellipsis_stage1 (t : JSString) : ellipsis (stage1 t) = stage1 t :=
  ellipsis_ellipsis _

/-- C9 on a failing input: stage 1 maps `alt=''` to `alt=’'`, because the match that
replaces the first apostrophe consumes the two units before the second one; applying
the apostrophe substitution to that output changes it into `alt=’’`. -/
theorem stage1_apostrophe_rerun :
    stage1 (utf16 "alt=''") = utf16 "alt=’'"
      ∧ apostrophe (stage1 (utf16 "alt=''")) = utf16 "alt=’’"
      ∧ apostrophe (stage1 (utf16 "alt=''")) ≠ stage1 (utf16 "alt=''") := by
  decide

/-- C4, as stated, fails: stage 1 leaves the apostrophe of `l'oeuvre...` (one unit
before it), replaces the apostrophe of `a-'` although a hyphen is right before it, and
leaves the apostrophe of `-a'` although no hyphen is right before it. -/
theorem stage1_apostrophe_counterexample :
    stage1 (utf16 "l'oeuvre...") = utf16 "l'œuvre…"
      ∧ stage1 (utf16 "l'oeuvre...") ≠ utf16 "l’œuvre…"
      ∧ stage1 (utf16 "a-'") = utf16 "a-’"
      ∧ stage1 (utf16 "-a'") = utf16 "-a'" := by
  decide

/-- C4, amended: stage 1 is the chain of the five substitutions. The apostrophe
substitution keeps the length of its input `u` and every unit that is no straight
apostrophe, and keeps a straight apostrophe or turns it into U+2019; it keeps every
straight apostrophe that has a hyphen two units before it; it replaces every straight
apostrophe whose two preceding units are no straight apostrophes, the first no hyphen
and the second no line terminator. In the output of stage 1, every straight apostrophe
preceded by two units that are no typographic apostrophes, the second no line
terminator, has a hyphen two units before it. Stage 1 maps `l'oeuvre...` after a space
to the same with U+2019, the ligature and the ellipsis. -/
theorem stage1_apostrophe (t u : JSString) :
    stage1 t = ellipsis (ligature (apostrophe (nbspAfterGuillemet (nbspBeforePunct t))))
      ∧ (apostrophe u).length = u.length
      ∧ (∀ i : Nat, u[i]? ≠ some 39 → (apostrophe u)[i]? = u[i]?)
      ∧ (∀ i : Nat, u[i]? = some 39 →
          (apostrophe u)[i]? = some 39 ∨ (apostrophe u)[i]? = some 8217)
      ∧ (∀ i : Nat, u[i]? = some 45 → u[i + 2]? = some 39 →
          (apostrophe u)[i + 2]? = some 39)
      ∧ (∀ (i : Nat) (a b : Nat), u[i]? = some a → u[i + 1]? = some b →
          u[i + 2]? = some 39 →
          a ≠ 45 → a ≠ 39 → isLineTerminator b = false → b ≠ 39 →
          (apostrophe u)[i + 2]? = some 8217)
      ∧ (∀ a b, [a, b, 39] <:+: stage1 t →
          a ≠ 8217 → b ≠ 8217 → isLineTerminator b = false → a = 45)
      ∧ stage1 (utf16 " l'oeuvre...") = utf16 " l’œuvre…" := by
  refine ⟨rfl, length_apostrophe u, ?_, ?_, ?_, ?_, ?_, by decide⟩
  · intro i hi
    rcases apostrophe_getElem u i with h | ⟨h, -⟩
    · exact h
    · exact absurd h hi
  · intro i hi
    rcases apostrophe_getElem u i with h | ⟨-, h, -⟩
    · exact Or.inl (h.trans hi)
    · exact Or.inr h
  · intro i h45 h39
    rcases apostrophe_getElem u (i + 2) with h | ⟨-, -, a, b, ha, -, -, ha45, -⟩
    · exact h.trans h39
    · rw [Nat.add_sub_cancel, h45] at ha
      exact absurd (Option.some.inj ha).symm ha45
  · intro i a b ha hb hc ha1 ha2 hb1 hb2
    exact apostrophe_replaces u i a b ha hb hc ha1 ha2 hb1 hb2
  · intro a b hin ha hb hlt
    rcases (settled_stage1 t).window a b 39 hin rfl with h1 | h1 | h1 | h1
    · exact h1
    · rw [h1] at hlt
      cases hlt
    · exact absurd h1 ha
    · exact absurd h1 hb

/-- Witness of C4, amended: in `dans-l'art l'art`, the apostrophe that has a hyphen two
units before it is kept and the one that has a space two units before it is replaced;
the apostrophe left in the output of stage 1 has the hyphen two units before it. -/
theorem stage1_apostrophe_witness :
    (apostrophe (utf16 "dans-l'art l'art"))[6]? = some 39
      ∧ (apostrophe (utf16 "dans-l'art l'art"))[12]? = some 8217
      ∧ ([45, 108, 39] <:+: stage1 (utf16 "dans-l'art l'art") ∧ (45 : Nat) = 45) :=
  ⟨(stage1_apostrophe [] (utf16 "dans-l'art l'art")).2.2.2.2.1 4 (by decide) (by decide),
    (stage1_apostrophe [] (utf16 "dans-l'art l'art")).2.2.2.2.2.1 10 32 108
      (by decide) (by decide) (by decide) (by decide) (by decide) (by decide) (by decide),
    ⟨⟨utf16 "dans", utf16 "art l’art", by decide⟩,
      (stage1_apostrophe (utf16 "dans-l'art l'art") []).2.2.2.2.2.2.1 45 108
        ⟨utf16 "dans", utf16 "art l’art", by decide⟩ (by decide) (by decide) (by decide)⟩⟩

end Eleventy
